import Mathlib

set_option maxHeartbeats 1000000

set_option maxRecDepth 8000

/-!
Shallow embedding of the rustferret console driver (`src/vga_buffer.rs`)
and of the interrupt-descriptor-table setup (`src/interrupts.rs`).

The VGA text buffer is a 25×80 grid of two-byte cells.  Rust's `usize`
indexing panics when out of bounds; the embedding models every buffer
access as an `Option`-returning operation, where `none` is the panic.
Bytes and color codes are modelled as `Nat` (the source uses `u8`; all
values involved stay below 256).
-/

def BUFFER_HEIGHT : Nat := 25

def BUFFER_WIDTH : Nat := 80

/-- A two-byte VGA cell: ASCII code plus color attribute
(`ScreenChar` in `src/vga_buffer.rs`). -/
structure ScreenChar where
  ascii_char : Nat
  color_code : Nat
deriving DecidableEq, Repr

/-- `ColorCode::new(foreground, background)` packs the two 4-bit color
numbers into one byte: `(background << 4) | foreground`. -/
def ColorCode.new (foreground background : Nat) : Nat :=
  (background <<< 4) ||| foreground

/-- `Color::Yellow as u8` -/
def Color.yellow : Nat := 14

/-- `Color::Black as u8` -/
def Color.black : Nat := 0

/-- The VGA buffer: a list of rows, each a list of cells.  A well-formed
buffer (see `wfBuffer`) has `BUFFER_HEIGHT` rows of `BUFFER_WIDTH` cells. -/
abbrev Buffer : Type := List (List ScreenChar)

/-- `self.buffer.chars[row][col].read()`; `none` models the
out-of-bounds panic. -/
def Buffer.readCell (b : Buffer) (row col : Nat) : Option ScreenChar :=
  (b[row]?).bind fun r => r[col]?

/-- `self.buffer.chars[row][col].write(ch)`; `none` models the
out-of-bounds panic. -/
def Buffer.writeCell (b : Buffer) (row col : Nat) (ch : ScreenChar) :
    Option Buffer :=
  match b[row]? with
  | none => none
  | some r => if col < r.length then some (b.set row (r.set col ch)) else none

/-- The console writer state (`ConsoleWriter` in `src/vga_buffer.rs`).
`shift_count` is ghost instrumentation: it counts the `new_line`
(line-shift) calls performed so far and is read by no operation, so it
has no influence on any other field. -/
structure ConsoleWriter where
  column_position : Nat
  current_color : Nat
  buffer : Buffer
  shift_count : Nat
deriving DecidableEq, Repr

/-- The blank cell written by `clear_row`: ASCII space with the given color. -/
def blankChar (color : Nat) : ScreenChar :=
  { ascii_char := 32, color_code := color }

/-- The loop `for col in 0..n` of `ConsoleWriter::clear_row`, writing a blank
cell at `(row, col)` for every `col < n`. -/
def ConsoleWriter.clearRowUpTo (w : ConsoleWriter) (row : Nat) : Nat → Option ConsoleWriter
  | 0 => some w
  | n + 1 =>
    (w.clearRowUpTo row n).bind fun w2 =>
      (w2.buffer.writeCell row n (blankChar w2.current_color)).map fun b =>
        { w2 with buffer := b }

/-- `ConsoleWriter::clear_row`: overwrite every cell of `row` with a blank cell. -/
def ConsoleWriter.clear_row (w : ConsoleWriter) (row : Nat) : Option ConsoleWriter :=
  w.clearRowUpTo row BUFFER_WIDTH

/-- The inner loop `for col in 0..n` of `ConsoleWriter::new_line`: copy cell
`(row, col)` into `(row-1, col)` for every `col < n`. -/
def ConsoleWriter.copyRowUpTo (w : ConsoleWriter) (row : Nat) : Nat → Option ConsoleWriter
  | 0 => some w
  | n + 1 =>
    (w.copyRowUpTo row n).bind fun w2 =>
      (w2.buffer.readCell row n).bind fun ch =>
        (w2.buffer.writeCell (row - 1) n ch).map fun b => { w2 with buffer := b }

/-- The outer loop `for row in 1..m+1` of `ConsoleWriter::new_line`: copy row
`r` into row `r-1` for `r = 1, 2, …, m` in order. -/
def ConsoleWriter.shiftRowsUpTo (w : ConsoleWriter) : Nat → Option ConsoleWriter
  | 0 => some w
  | m + 1 =>
    (w.shiftRowsUpTo m).bind fun w2 => w2.copyRowUpTo (m + 1) BUFFER_WIDTH

/-- `ConsoleWriter::new_line`: scroll every row up by one, clear the bottom row,
reset the column to 0.  (The ghost `shift_count` is incremented.) -/
def ConsoleWriter.new_line (w : ConsoleWriter) : Option ConsoleWriter :=
  (w.shiftRowsUpTo (BUFFER_HEIGHT - 1)).bind fun w2 =>
    (w2.clear_row (BUFFER_HEIGHT - 1)).map fun w3 =>
      { w3 with column_position := 0, shift_count := w3.shift_count + 1 }

/-- `ConsoleWriter::write_byte`: newline performs a line shift; otherwise, if the
column has reached the width, a line shift happens first, and then the
byte is stored at the bottom row and current column with the writer's
color, and the column advances. -/
def ConsoleWriter.write_byte (w : ConsoleWriter) (byte : Nat) : Option ConsoleWriter :=
  if byte = 10 then
    w.new_line
  else
    (if BUFFER_WIDTH ≤ w.column_position then w.new_line else some w).bind
      fun w2 =>
        (w2.buffer.writeCell (BUFFER_HEIGHT - 1) w2.column_position
            { ascii_char := byte, color_code := w2.current_color }).map fun b =>
          { w2 with buffer := b, column_position := w2.column_position + 1 }

/-- `ConsoleWriter::write_string`: each byte in `0x20..=0x7e` or the newline byte
goes to `write_byte` unchanged; every other byte is replaced by `0xfe`. -/
def ConsoleWriter.write_string (w : ConsoleWriter) : List Nat → Option ConsoleWriter
  | [] => some w
  | byte :: rest =>
    (if (0x20 ≤ byte ∧ byte ≤ 0x7e) ∨ byte = 10 then w.write_byte byte
     else w.write_byte 0xfe).bind fun w2 => w2.write_string rest

/-- Feed a list of bytes to `write_byte` one after the other (used to
state what `write_string` passes down). -/
def ConsoleWriter.write_bytes (w : ConsoleWriter) : List Nat → Option ConsoleWriter
  | [] => some w
  | byte :: rest => (w.write_byte byte).bind fun w2 => w2.write_bytes rest

/-- Well-formedness of a buffer: 25 rows of 80 cells, which the Rust
array type `[[Volatile<ScreenChar>; BUFFER_WIDTH]; BUFFER_HEIGHT]`
guarantees statically. -/
def wfBuffer (b : Buffer) : Prop :=
  b.length = BUFFER_HEIGHT ∧ ∀ r ∈ b, r.length = BUFFER_WIDTH

instance (b : Buffer) : Decidable (wfBuffer b) := by
  unfold wfBuffer; infer_instance

/-- An all-blank 25×80 buffer (the "empty buffer" of the examples),
blanks carrying the global writer's yellow-on-black color. -/
def emptyBuffer : Buffer :=
  List.replicate BUFFER_HEIGHT
    (List.replicate BUFFER_WIDTH (blankChar (ColorCode.new Color.yellow Color.black)))

/-- The global `WRITER` as constructed in `src/vga_buffer.rs`: column 0,
yellow on black, viewing the buffer `b` (the VGA memory contents at
construction time). -/
def initWriter (b : Buffer) : ConsoleWriter :=
  { column_position := 0
    current_color := ColorCode.new Color.yellow Color.black
    buffer := b
    shift_count := 0 }

/-- Write a sequence of newline-terminated lines, one `write_string` call
per line (the scenario of repeated `println!`). -/
def writeLines (w : ConsoleWriter) : List (List Nat) → Option ConsoleWriter
  | [] => some w
  | l :: rest => (w.write_string (l ++ [10])).bind fun w2 => writeLines w2 rest

/-- Modelled from the spec: the `x86_64` crate's
`InterruptDescriptorTable` (the crate is an external dependency, not part
of this repository) is a 256-entry vector table, each entry either
unbound (`none`) or bound to a handler, identified here by a tag. -/
abbrev InterruptDescriptorTable : Type := Fin 256 → Option Nat

/-- Modelled from the spec: `InterruptDescriptorTable::new()` leaves
every entry unbound. -/
def InterruptDescriptorTable.new : InterruptDescriptorTable := fun _ => none

/-- The breakpoint exception is hardware vector number 3. -/
def breakpointVector : Fin 256 := 3

/-- Modelled from the spec: `idt.breakpoint.set_handler_fn(h)` binds
vector 3 to `h` and changes no other entry. -/
def InterruptDescriptorTable.setBreakpointHandler
    (t : InterruptDescriptorTable) (h : Nat) : InterruptDescriptorTable :=
  fun v => if v = breakpointVector then some h else t v

/-- Tag standing for `breakpoint_handler` of `src/interrupts.rs`. -/
def breakpoint_handler : Nat := 0

/-- The `IDT` static of `src/interrupts.rs`: a fresh table with only the
breakpoint handler installed.  `init_idt` loads this table once;
the table itself is a constant and is never mutated. -/
def IDT : InterruptDescriptorTable :=
  InterruptDescriptorTable.new.setBreakpointHandler breakpoint_handler

/-! ### Basic buffer lemmas -/

theorem Buffer.row_of_wf {b : Buffer} (hwf : wfBuffer b) {row : Nat}
    (h : row < BUFFER_HEIGHT) :
    ∃ r, b[row]? = some r ∧ r.length = BUFFER_WIDTH := by
  have hlt : row < b.length := by rw [hwf.1]; exact h
  refine ⟨b[row], List.getElem?_eq_getElem hlt, hwf.2 _ ?_⟩
  exact List.getElem_mem hlt

theorem Buffer.readCell_isSome {b : Buffer} (hwf : wfBuffer b) {row col : Nat}
    (hr : row < BUFFER_HEIGHT) (hc : col < BUFFER_WIDTH) :
    ∃ ch, b.readCell row col = some ch := by
  obtain ⟨r, hrow, hlen⟩ := Buffer.row_of_wf hwf hr
  have hclt : col < r.length := by rw [hlen]; exact hc
  exact ⟨r[col], by
    simp [Buffer.readCell, hrow, List.getElem?_eq_getElem hclt]⟩

theorem Buffer.readCell_none_of_oob {b : Buffer} (hwf : wfBuffer b) {row col : Nat}
    (h : BUFFER_HEIGHT ≤ row ∨ BUFFER_WIDTH ≤ col) :
    b.readCell row col = none := by
  rcases h with h | h
  · have hn : b[row]? = none := List.getElem?_eq_none (by rw [hwf.1]; exact h)
    simp [Buffer.readCell, hn]
  · cases hrow : b[row]? with
    | none => simp [Buffer.readCell, hrow]
    | some r =>
      have hlen : r.length = BUFFER_WIDTH := by
        rw [List.getElem?_eq_some] at hrow
        obtain ⟨hlt, hr⟩ := hrow
        rw [← hr]
        exact hwf.2 _ (List.getElem_mem hlt)
      have hn : r[col]? = none := List.getElem?_eq_none (by rw [hlen]; exact h)
      simp [Buffer.readCell, hrow, hn]

theorem Buffer.writeCell_spec {b : Buffer} (hwf : wfBuffer b) {row col : Nat}
    (ch : ScreenChar) (hr : row < BUFFER_HEIGHT) (hc : col < BUFFER_WIDTH) :
    ∃ b', b.writeCell row col ch = some b' ∧ wfBuffer b' ∧
      ∀ r c, b'.readCell r c =
        if r = row ∧ c = col then some ch else b.readCell r c := by
  obtain ⟨r0, hrow, hlen⟩ := Buffer.row_of_wf hwf hr
  have hclt : col < r0.length := by rw [hlen]; exact hc
  have hrlt : row < b.length := by rw [hwf.1]; exact hr
  refine ⟨b.set row (r0.set col ch), ?_, ?_, ?_⟩
  · simp [Buffer.writeCell, hrow, hclt]
  · constructor
    · rw [List.length_set]; exact hwf.1
    · intro r hmem
      rcases List.mem_or_eq_of_mem_set hmem with hmem | rfl
      · exact hwf.2 r hmem
      · rw [List.length_set]; exact hlen
  · intro r c
    by_cases hrr : r = row
    · subst hrr
      have hget : (b.set r (r0.set col ch))[r]? = some (r0.set col ch) :=
        List.getElem?_set_eq_of_lt _ hrlt
      by_cases hcc : c = col
      · subst hcc
        simp only [Buffer.readCell, hget, Option.some_bind]
        rw [List.getElem?_set_eq_of_lt _ hclt]
        simp
      · simp only [Buffer.readCell, hget, Option.some_bind]
        rw [List.getElem?_set_ne (fun h => hcc h.symm)]
        simp [Buffer.readCell, hrow, hcc]
    · have hget : (b.set row (r0.set col ch))[r]? = b[r]? :=
        List.getElem?_set_ne (fun h => hrr h.symm)
      simp [Buffer.readCell, hget, hrr]

/-! ### Loop lemmas for `clear_row` and `new_line` -/

theorem ConsoleWriter.clearRowUpTo_spec (w : ConsoleWriter) (row : Nat) (n : Nat)
    (hwf : wfBuffer w.buffer) (hr : row < BUFFER_HEIGHT) (hn : n ≤ BUFFER_WIDTH) :
    ∃ w', w.clearRowUpTo row n = some w' ∧ wfBuffer w'.buffer ∧
      w'.column_position = w.column_position ∧
      w'.current_color = w.current_color ∧
      w'.shift_count = w.shift_count ∧
      ∀ r c, w'.buffer.readCell r c =
        if r = row ∧ c < n then some (blankChar w.current_color)
        else w.buffer.readCell r c := by
  induction n with
  | zero => exact ⟨w, rfl, hwf, rfl, rfl, rfl, by intro r c; simp⟩
  | succ n ih =>
    obtain ⟨w2, hw2, hwf2, hcol2, hcolor2, hshift2, hcells2⟩ :=
      ih (Nat.le_of_succ_le hn)
    obtain ⟨b', hb', hwfb', hcellsb'⟩ :=
      Buffer.writeCell_spec hwf2 (blankChar w2.current_color) hr
        (Nat.lt_of_lt_of_le (Nat.lt_succ_self n) hn)
    refine ⟨{ w2 with buffer := b' }, ?_, hwfb', hcol2, hcolor2, hshift2, ?_⟩
    · simp [ConsoleWriter.clearRowUpTo, hw2, hb']
    · intro r c
      show b'.readCell r c = _
    
      rw [hcellsb', hcells2, hcolor2]
      split_ifs <;> first | rfl | omega

theorem ConsoleWriter.clear_row_spec (w : ConsoleWriter) (row : Nat)
    (hwf : wfBuffer w.buffer) (hr : row < BUFFER_HEIGHT) :
    ∃ w', w.clear_row row = some w' ∧ wfBuffer w'.buffer ∧
      w'.column_position = w.column_position ∧
      w'.current_color = w.current_color ∧
      w'.shift_count = w.shift_count ∧
      ∀ r c, w'.buffer.readCell r c =
        if r = row ∧ c < BUFFER_WIDTH then some (blankChar w.current_color)
        else w.buffer.readCell r c :=
  ConsoleWriter.clearRowUpTo_spec w row BUFFER_WIDTH hwf hr (Nat.le_refl _)

theorem ConsoleWriter.copyRowUpTo_spec (w : ConsoleWriter) (row : Nat) (n : Nat)
    (hwf : wfBuffer w.buffer) (hr1 : 1 ≤ row) (hr : row < BUFFER_HEIGHT)
    (hn : n ≤ BUFFER_WIDTH) :
    ∃ w', w.copyRowUpTo row n = some w' ∧ wfBuffer w'.buffer ∧
      w'.column_position = w.column_position ∧
      w'.current_color = w.current_color ∧
      w'.shift_count = w.shift_count ∧
      ∀ r c, w'.buffer.readCell r c =
        if r = row - 1 ∧ c < n then w.buffer.readCell row c
        else w.buffer.readCell r c := by
  induction n with
  | zero => exact ⟨w, rfl, hwf, rfl, rfl, rfl, by intro r c; simp⟩
  | succ n ih =>
    obtain ⟨w2, hw2, hwf2, hcol2, hcolor2, hshift2, hcells2⟩ :=
      ih (Nat.le_of_succ_le hn)
    have hnw : n < BUFFER_WIDTH := Nat.lt_of_lt_of_le (Nat.lt_succ_self n) hn
    obtain ⟨ch, hch⟩ := Buffer.readCell_isSome hwf hr hnw
    have hread2 : w2.buffer.readCell row n = some ch := by
      rw [hcells2, if_neg (by omega : ¬(row = row - 1 ∧ n < n))]
      exact hch
    obtain ⟨b', hb', hwfb', hcellsb'⟩ :=
      Buffer.writeCell_spec hwf2 ch (by omega : row - 1 < BUFFER_HEIGHT) hnw
    refine ⟨{ w2 with buffer := b' }, ?_, hwfb', hcol2, hcolor2, hshift2, ?_⟩
    · simp [ConsoleWriter.copyRowUpTo, hw2, hread2, hb']
    · intro r c
      show b'.readCell r c = _
      rw [hcellsb']
      by_cases h1 : r = row - 1 ∧ c = n
      · rw [if_pos h1, if_pos (by omega : r = row - 1 ∧ c < n + 1), ← hch]
        rw [show (n : Nat) = c from h1.2.symm]
      · rw [if_neg h1, hcells2]
        by_cases h2 : r = row - 1 ∧ c < n
        · rw [if_pos h2, if_pos (by omega : r = row - 1 ∧ c < n + 1)]
        · rw [if_neg h2, if_neg (by omega : ¬(r = row - 1 ∧ c < n + 1))]

theorem ConsoleWriter.shiftRowsUpTo_spec (w : ConsoleWriter) (m : Nat)
    (hwf : wfBuffer w.buffer) (hm : m ≤ BUFFER_HEIGHT - 1) :
    ∃ w', w.shiftRowsUpTo m = some w' ∧ wfBuffer w'.buffer ∧
      w'.column_position = w.column_position ∧
      w'.current_color = w.current_color ∧
      w'.shift_count = w.shift_count ∧
      ∀ r c, w'.buffer.readCell r c =
        if r < m then w.buffer.readCell (r + 1) c
        else w.buffer.readCell r c := by
  induction m with
  | zero => exact ⟨w, rfl, hwf, rfl, rfl, rfl, by intro r c; simp⟩
  | succ m ih =>
    obtain ⟨w2, hw2, hwf2, hcol2, hcolor2, hshift2, hcells2⟩ :=
      ih (Nat.le_of_succ_le hm)
    obtain ⟨w3, hw3, hwf3, hcol3, hcolor3, hshift3, hcells3⟩ :=
      ConsoleWriter.copyRowUpTo_spec w2 (m + 1) BUFFER_WIDTH hwf2
        (by omega) (by simp only [BUFFER_HEIGHT] at hm ⊢; omega)
        (Nat.le_refl _)
    refine ⟨w3, ?_, hwf3, by rw [hcol3, hcol2], by rw [hcolor3, hcolor2],
      by rw [hshift3, hshift2], ?_⟩
    · simp [ConsoleWriter.shiftRowsUpTo, hw2, hw3]
    · intro r c
      rw [hcells3]
      simp only [Nat.add_sub_cancel]
      by_cases h1 : r = m ∧ c < BUFFER_WIDTH
      · rw [if_pos h1, hcells2, if_neg (by omega : ¬(m + 1 < m)),
          if_pos (by omega : r < m + 1),
          show r + 1 = m + 1 from by omega]
      · rw [if_neg h1, hcells2]
        by_cases h2 : r < m
        · rw [if_pos h2, if_pos (by omega : r < m + 1)]
        · rw [if_neg h2]
          by_cases h3 : r < m + 1
          · have hc80 : BUFFER_WIDTH ≤ c := by omega
            rw [if_pos h3, Buffer.readCell_none_of_oob hwf (Or.inr hc80),
              Buffer.readCell_none_of_oob hwf (Or.inr hc80)]
          · rw [if_neg h3]

theorem ConsoleWriter.new_line_spec (w : ConsoleWriter) (hwf : wfBuffer w.buffer) :
    ∃ w', w.new_line = some w' ∧ wfBuffer w'.buffer ∧
      w'.column_position = 0 ∧
      w'.current_color = w.current_color ∧
      w'.shift_count = w.shift_count + 1 ∧
      ∀ r c, w'.buffer.readCell r c =
        if r = BUFFER_HEIGHT - 1 ∧ c < BUFFER_WIDTH then
          some (blankChar w.current_color)
        else if r < BUFFER_HEIGHT - 1 then w.buffer.readCell (r + 1) c
        else w.buffer.readCell r c := by
  obtain ⟨w2, hw2, hwf2, hcol2, hcolor2, hshift2, hcells2⟩ :=
    ConsoleWriter.shiftRowsUpTo_spec w (BUFFER_HEIGHT - 1) hwf (Nat.le_refl _)
  obtain ⟨w3, hw3, hwf3, hcol3, hcolor3, hshift3, hcells3⟩ :=
    ConsoleWriter.clear_row_spec w2 (BUFFER_HEIGHT - 1) hwf2
      (by simp [BUFFER_HEIGHT])
  refine ⟨{ w3 with column_position := 0, shift_count := w3.shift_count + 1 },
    ?_, hwf3, rfl, by rw [hcolor3, hcolor2], by rw [hshift3, hshift2], ?_⟩
  · simp [ConsoleWriter.new_line, hw2, hw3]
  · intro r c
    show w3.buffer.readCell r c = _
    rw [hcells3, hcolor2]
    by_cases h1 : r = BUFFER_HEIGHT - 1 ∧ c < BUFFER_WIDTH
    · rw [if_pos h1, if_pos h1]
    · rw [if_neg h1, if_neg h1, hcells2]

/-! ### `write_byte` case analysis -/

theorem ConsoleWriter.write_byte_newline (w : ConsoleWriter) :
    w.write_byte 10 = w.new_line := by
  simp [ConsoleWriter.write_byte]

theorem ConsoleWriter.write_byte_spec_lt (w : ConsoleWriter) (byte : Nat)
    (hwf : wfBuffer w.buffer) (hb : byte ≠ 10)
    (hcol : w.column_position < BUFFER_WIDTH) :
    ∃ w', w.write_byte byte = some w' ∧ wfBuffer w'.buffer ∧
      w'.column_position = w.column_position + 1 ∧
      w'.current_color = w.current_color ∧
      w'.shift_count = w.shift_count ∧
      ∀ r c, w'.buffer.readCell r c =
        if r = BUFFER_HEIGHT - 1 ∧ c = w.column_position then
          some { ascii_char := byte, color_code := w.current_color }
        else w.buffer.readCell r c := by
  have hlt : BUFFER_HEIGHT - 1 < BUFFER_HEIGHT := by simp [BUFFER_HEIGHT]
  obtain ⟨b', hb', hwfb', hcells⟩ :=
    Buffer.writeCell_spec hwf
      { ascii_char := byte, color_code := w.current_color } hlt hcol
  refine ⟨{ w with buffer := b', column_position := w.column_position + 1 }, ?_, hwfb', rfl, rfl, rfl, hcells⟩
  simp [ConsoleWriter.write_byte, hb, Nat.not_le.mpr hcol, hb']

theorem ConsoleWriter.write_byte_spec_ge (w : ConsoleWriter) (byte : Nat)
    (hwf : wfBuffer w.buffer) (hb : byte ≠ 10)
    (hcol : BUFFER_WIDTH ≤ w.column_position) :
    ∃ wn w', w.new_line = some wn ∧ w.write_byte byte = some w' ∧
      wfBuffer w'.buffer ∧
      w'.column_position = 1 ∧
      w'.current_color = w.current_color ∧
      w'.shift_count = w.shift_count + 1 ∧
      ∀ r c, w'.buffer.readCell r c =
        if r = BUFFER_HEIGHT - 1 ∧ c = 0 then
          some { ascii_char := byte, color_code := w.current_color }
        else wn.buffer.readCell r c := by
  obtain ⟨wn, hwn, hwfn, hcoln, hcolorn, hshiftn, hcellsn⟩ :=
    ConsoleWriter.new_line_spec w hwf
  have hlt : BUFFER_HEIGHT - 1 < BUFFER_HEIGHT := by simp [BUFFER_HEIGHT]
  have hc0 : wn.column_position < BUFFER_WIDTH := by
    rw [hcoln]; simp [BUFFER_WIDTH]
  obtain ⟨b', hb', hwfb', hcells⟩ :=
    Buffer.writeCell_spec hwfn
      { ascii_char := byte, color_code := wn.current_color } hlt hc0
  refine ⟨wn, { wn with buffer := b', column_position := wn.column_position + 1 }, hwn, ?_, hwfb',
    by simp [hcoln], by simp [hcolorn], by simp [hshiftn], ?_⟩
  · simp [ConsoleWriter.write_byte, hb, hcol, hwn, hb']
  · intro r c
    show b'.readCell r c = _
    rw [hcells, hcoln, hcolorn]

/-- `write_byte` never hits the out-of-bounds branch on a well-formed
buffer, and it keeps the column at or below the width. -/
theorem ConsoleWriter.write_byte_total (w : ConsoleWriter) (byte : Nat)
    (hwf : wfBuffer w.buffer) :
    ∃ w', w.write_byte byte = some w' ∧ wfBuffer w'.buffer ∧
      w'.column_position ≤ BUFFER_WIDTH ∧
      w'.current_color = w.current_color := by
  by_cases hb : byte = 10
  · subst hb
    obtain ⟨w', hw', hwf', hcol', hcolor', _, _⟩ := ConsoleWriter.new_line_spec w hwf
    exact ⟨w', by rw [ConsoleWriter.write_byte_newline]; exact hw', hwf',
      by rw [hcol']; exact Nat.zero_le _, hcolor'⟩
  · by_cases hc : w.column_position < BUFFER_WIDTH
    · obtain ⟨w', hw', hwf', hcol', hcolor', _, _⟩ :=
        ConsoleWriter.write_byte_spec_lt w byte hwf hb hc
      exact ⟨w', hw', hwf', by rw [hcol']; exact hc, hcolor'⟩
    · obtain ⟨wn, w', _, hw', hwf', hcol', hcolor', _, _⟩ :=
        ConsoleWriter.write_byte_spec_ge w byte hwf hb (Nat.le_of_not_lt hc)
      refine ⟨w', hw', hwf', by rw [hcol']; simp [BUFFER_WIDTH], hcolor'⟩

/-- `write_string` never hits the out-of-bounds branch on a well-formed
buffer, and preserves the column invariant `column ≤ width`. -/
theorem ConsoleWriter.write_string_total (s : List Nat) : ∀ (w : ConsoleWriter),
    wfBuffer w.buffer → w.column_position ≤ BUFFER_WIDTH →
    ∃ w', w.write_string s = some w' ∧ wfBuffer w'.buffer ∧
      w'.column_position ≤ BUFFER_WIDTH ∧
      w'.current_color = w.current_color := by
  induction s with
  | nil => exact fun w hwf hcol => ⟨w, rfl, hwf, hcol, rfl⟩
  | cons byte rest ih =>
    intro w hwf hcol
    by_cases hprint : (0x20 ≤ byte ∧ byte ≤ 0x7e) ∨ byte = 10
    · obtain ⟨w2, hw2, hwf2, hcol2, hcolor2⟩ :=
        ConsoleWriter.write_byte_total w byte hwf
      obtain ⟨w', hw', hwf', hcol', hcolor'⟩ := ih w2 hwf2 hcol2
      exact ⟨w', by simp [ConsoleWriter.write_string, hprint, hw2, hw'],
        hwf', hcol', by rw [hcolor', hcolor2]⟩
    · obtain ⟨w2, hw2, hwf2, hcol2, hcolor2⟩ :=
        ConsoleWriter.write_byte_total w 0xfe hwf
      obtain ⟨w', hw', hwf', hcol', hcolor'⟩ := ih w2 hwf2 hcol2
      exact ⟨w', by simp [ConsoleWriter.write_string, hprint, hw2, hw'],
        hwf', hcol', by rw [hcolor', hcolor2]⟩

/-! ### `write_string` structure -/

/-- The byte filter applied by `write_string` before calling `write_byte`:
printable ASCII (0x20–0x7e) and newline pass unchanged, everything else
becomes the placeholder 0xfe. -/
def vgaMapByte (byte : Nat) : Nat :=
  if (0x20 ≤ byte ∧ byte ≤ 0x7e) ∨ byte = 10 then byte else 0xfe

theorem ConsoleWriter.write_string_append (a b : List Nat) :
    ∀ (w : ConsoleWriter),
    w.write_string (a ++ b) =
      (w.write_string a).bind fun w2 => w2.write_string b := by
  induction a with
  | nil => intro w; simp [ConsoleWriter.write_string]
  | cons byte rest ih =>
    intro w
    simp only [List.cons_append, ConsoleWriter.write_string, Option.bind_assoc]
    cases h : (if (0x20 ≤ byte ∧ byte ≤ 0x7e) ∨ byte = 10 then w.write_byte byte
        else w.write_byte 0xfe) with
    | none => simp
    | some w2 => simp [ih]

theorem ConsoleWriter.write_string_eq_bytes (s : List Nat) :
    ∀ (w : ConsoleWriter),
    w.write_string s = w.write_bytes (s.map vgaMapByte) := by
  induction s with
  | nil => intro w; rfl
  | cons byte rest ih =>
    intro w
    simp only [List.map_cons, ConsoleWriter.write_string,
      ConsoleWriter.write_bytes, vgaMapByte]
    by_cases h : (0x20 ≤ byte ∧ byte ≤ 0x7e) ∨ byte = 10
    · rw [if_pos h, if_pos h]
      cases hwb : w.write_byte byte with
      | none => simp
      | some w2 => simp [ih]
    · rw [if_neg h, if_neg h]
      cases hwb : w.write_byte 0xfe with
      | none => simp
      | some w2 => simp [ih]

/-! ### Placeholder / avoidance machinery -/

/-- The cell (if present) does not carry ASCII value `v`. -/
def cellAvoids : Option ScreenChar → Nat → Prop
  | none, _ => True
  | some ch, v => ch.ascii_char ≠ v

instance (o : Option ScreenChar) (v : Nat) : Decidable (cellAvoids o v) := by
  cases o <;> simp only [cellAvoids] <;> infer_instance

/-- No in-bounds cell of the buffer carries ASCII value `v`. -/
def bufferAvoids (b : Buffer) (v : Nat) : Prop :=
  ∀ r, r < BUFFER_HEIGHT → ∀ c, c < BUFFER_WIDTH → cellAvoids (b.readCell r c) v

instance (b : Buffer) (v : Nat) : Decidable (bufferAvoids b v) := by
  unfold bufferAvoids; infer_instance

theorem ConsoleWriter.new_line_avoids (w : ConsoleWriter) (v : Nat)
    (hwf : wfBuffer w.buffer) (hav : bufferAvoids w.buffer v)
    (h32 : (32 : Nat) ≠ v) :
    ∀ w', w.new_line = some w' → bufferAvoids w'.buffer v := by
  obtain ⟨w', hw', _, _, _, _, hcells⟩ := ConsoleWriter.new_line_spec w hwf
  intro w2 hw2
  rw [hw'] at hw2
  cases hw2
  intro r hr c hc
  rw [hcells]
  split_ifs with h1 h2
  · simpa [cellAvoids, blankChar] using h32
  · exact hav (r + 1) (by omega) c hc
  · exact hav r hr c hc

theorem ConsoleWriter.write_byte_avoids (w : ConsoleWriter) (byte v : Nat)
    (hwf : wfBuffer w.buffer) (hav : bufferAvoids w.buffer v)
    (hbv : byte ≠ v ∨ byte = 10) (h32 : (32 : Nat) ≠ v) :
    ∀ w', w.write_byte byte = some w' → bufferAvoids w'.buffer v := by
  intro w' hw'
  by_cases hb : byte = 10
  · subst hb
    rw [ConsoleWriter.write_byte_newline] at hw'
    exact ConsoleWriter.new_line_avoids w v hwf hav h32 w' hw'
  · have hbv' : byte ≠ v := by tauto
    by_cases hc : w.column_position < BUFFER_WIDTH
    · obtain ⟨w2, hw2, _, _, _, _, hcells⟩ :=
        ConsoleWriter.write_byte_spec_lt w byte hwf hb hc
      rw [hw2] at hw'
      cases hw'
      intro r hr c hcw
      rw [hcells]
      split_ifs with h1
      · exact hbv'
      · exact hav r hr c hcw
    · obtain ⟨wn, w2, hwn, hw2, _, _, _, _, hcells⟩ :=
        ConsoleWriter.write_byte_spec_ge w byte hwf hb (Nat.le_of_not_lt hc)
      have havn : bufferAvoids wn.buffer v :=
        ConsoleWriter.new_line_avoids w v hwf hav h32 wn hwn
      rw [hw2] at hw'
      cases hw'
      intro r hr c hcw
      rw [hcells]
      split_ifs with h1
      · exact hbv'
      · exact havn r hr c hcw

theorem ConsoleWriter.write_string_avoids (s : List Nat) :
    ∀ (w : ConsoleWriter) (v : Nat), wfBuffer w.buffer →
    bufferAvoids w.buffer v →
    ¬(0x20 ≤ v ∧ v ≤ 0x7e) → v ≠ 0xfe →
    ∀ w', w.write_string s = some w' → bufferAvoids w'.buffer v := by
  induction s with
  | nil =>
    intro w v _ hav _ _ w' hw'
    cases hw'
    exact hav
  | cons byte rest ih =>
    intro w v hwf hav hvp hvfe w' hw'
    have h32 : (32 : Nat) ≠ v := fun h => hvp (by omega)
    rw [ConsoleWriter.write_string] at hw'
    by_cases h : (0x20 ≤ byte ∧ byte ≤ 0x7e) ∨ byte = 10
    · rw [if_pos h] at hw'
      cases hwb : w.write_byte byte with
      | none => rw [hwb] at hw'; cases hw'
      | some w2 =>
        rw [hwb] at hw'
        have hbv : byte ≠ v ∨ byte = 10 := by
          rcases h with h | h
          · exact Or.inl (fun he => hvp (he ▸ h))
          · exact Or.inr h
        have hav2 := ConsoleWriter.write_byte_avoids w byte v hwf hav hbv h32 w2 hwb
        obtain ⟨w2', hw2', hwf2, _, _⟩ := ConsoleWriter.write_byte_total w byte hwf
        rw [hwb] at hw2'
        cases hw2'
        exact ih w2 v hwf2 hav2 hvp hvfe w' hw'
    · rw [if_neg h] at hw'
      cases hwb : w.write_byte 0xfe with
      | none => rw [hwb] at hw'; cases hw'
      | some w2 =>
        rw [hwb] at hw'
        have hbv : (0xfe : Nat) ≠ v ∨ (0xfe : Nat) = 10 :=
          Or.inl (fun he => hvfe he.symm)
        have hav2 := ConsoleWriter.write_byte_avoids w 0xfe v hwf hav hbv h32 w2 hwb
        obtain ⟨w2', hw2', hwf2, _, _⟩ := ConsoleWriter.write_byte_total w 0xfe hwf
        rw [hwb] at hw2'
        cases hw2'
        exact ih w2 v hwf2 hav2 hvp hvfe w' hw'

/-! ### Printable runs without wraparound -/

theorem ConsoleWriter.write_string_run (bs : List Nat) :
    ∀ (w : ConsoleWriter) (p : Nat),
    wfBuffer w.buffer → w.column_position = p →
    (∀ b ∈ bs, 0x20 ≤ b ∧ b ≤ 0x7e) →
    p + bs.length ≤ BUFFER_WIDTH →
    ∃ w', w.write_string bs = some w' ∧ wfBuffer w'.buffer ∧
      w'.column_position = p + bs.length ∧
      w'.current_color = w.current_color ∧
      w'.shift_count = w.shift_count ∧
      ∀ r c, w'.buffer.readCell r c =
        if r = BUFFER_HEIGHT - 1 ∧ p ≤ c ∧ c < p + bs.length then
          some { ascii_char := bs.getD (c - p) 0, color_code := w.current_color }
        else w.buffer.readCell r c := by
  induction bs with
  | nil =>
    intro w p hwf hcol _ _
    refine ⟨w, rfl, hwf, by simp [hcol], rfl, rfl, ?_⟩
    intro r c
    rw [if_neg (by simp only [List.length_nil]; omega)]
  | cons b rest ih =>
    intro w p hwf hcol hprint hlen
    simp only [List.length_cons] at hlen
    have hbp := hprint b (by simp)
    have hb10 : b ≠ 10 := by omega
    have hplt : w.column_position < BUFFER_WIDTH := by rw [hcol]; omega
    obtain ⟨w2, hw2, hwf2, hcol2, hcolor2, hshift2, hcells2⟩ :=
      ConsoleWriter.write_byte_spec_lt w b hwf hb10 hplt
    obtain ⟨w', hw', hwf', hcol', hcolor', hshift', hcells'⟩ :=
      ih w2 (p + 1) hwf2 (by rw [hcol2, hcol])
        (fun x hx => hprint x (by simp [hx])) (by omega)
    rw [hcol] at hcells2
    rw [hcolor2] at hcells' hcolor'
    refine ⟨w', ?_, hwf', by rw [hcol']; simp only [List.length_cons]; omega,
      hcolor', by rw [hshift', hshift2], ?_⟩
    · rw [ConsoleWriter.write_string, if_pos (Or.inl hbp), hw2,
        Option.some_bind]
      exact hw'
    · intro r c
      rw [hcells']
      simp only [List.length_cons]
      by_cases h1 : r = BUFFER_HEIGHT - 1 ∧ p + 1 ≤ c ∧ c < p + 1 + rest.length
      · rw [if_pos h1, if_pos (show r = BUFFER_HEIGHT - 1 ∧ p ≤ c ∧
          c < p + (rest.length + 1) by omega)]
        rw [show c - p = (c - (p + 1)) + 1 from by omega, List.getD_cons_succ]
      · rw [if_neg h1, hcells2]
        by_cases h2 : r = BUFFER_HEIGHT - 1 ∧ c = p
        · rw [if_pos h2, if_pos (show r = BUFFER_HEIGHT - 1 ∧ p ≤ c ∧
            c < p + (rest.length + 1) by omega)]
          rw [show c - p = 0 from by omega, List.getD_cons_zero]
        · rw [if_neg h2, if_neg (show ¬(r = BUFFER_HEIGHT - 1 ∧ p ≤ c ∧
            c < p + (rest.length + 1)) by omega)]

/-! ### Column and scroll-count bookkeeping for printable strings -/

theorem ConsoleWriter.write_string_printable_progress (bs : List Nat) :
    ∀ (w : ConsoleWriter),
    wfBuffer w.buffer → (∀ b ∈ bs, 0x20 ≤ b ∧ b ≤ 0x7e) →
    w.column_position ≤ BUFFER_WIDTH →
    ∃ w', w.write_string bs = some w' ∧ wfBuffer w'.buffer ∧
      w'.current_color = w.current_color ∧
      (bs = [] → w'.column_position = w.column_position ∧
        w'.shift_count = w.shift_count) ∧
      (bs ≠ [] →
        w'.column_position =
          (w.column_position + bs.length - 1) % BUFFER_WIDTH + 1 ∧
        w'.shift_count = w.shift_count +
          (w.column_position + bs.length - 1) / BUFFER_WIDTH) := by
  induction bs with
  | nil =>
    intro w hwf _ _
    exact ⟨w, rfl, hwf, rfl, fun _ => ⟨rfl, rfl⟩, fun h => absurd rfl h⟩
  | cons b rest ih =>
    intro w hwf hprint hcol
    simp only [BUFFER_WIDTH] at hcol
    have hbp := hprint b (by simp)
    have hb10 : b ≠ 10 := by omega
    by_cases hc : w.column_position < BUFFER_WIDTH
    · obtain ⟨w2, hw2, hwf2, hcol2, hcolor2, hshift2, _⟩ :=
        ConsoleWriter.write_byte_spec_lt w b hwf hb10 hc
      obtain ⟨w', hw', hwf', hcolor', hnil', hcons'⟩ :=
        ih w2 hwf2 (fun x hx => hprint x (by simp [hx])) (by omega)
      refine ⟨w', ?_, hwf', by rw [hcolor', hcolor2], fun h => absurd h (List.cons_ne_nil _ _), ?_⟩
      · rw [ConsoleWriter.write_string, if_pos (Or.inl hbp), hw2,
          Option.some_bind]
        exact hw'
      · intro _
        simp only [List.length_cons]
        simp only [BUFFER_WIDTH] at hc ⊢
        rcases List.eq_nil_or_concat rest with rfl | hne
        · obtain ⟨h1, h2⟩ := hnil' rfl
          rw [h1, h2, hcol2, hshift2]
          simp only [List.length_nil, List.length_cons]
          constructor <;> first | trivial | omega
        · have hrne : rest ≠ [] := by
            rcases hne with ⟨l, a, rfl⟩; simp
          obtain ⟨h1, h2⟩ := hcons' hrne
          simp only [BUFFER_WIDTH] at h1 h2
          rw [h1, h2, hcol2, hshift2]
          constructor <;> first | trivial | omega
    · obtain ⟨wn, w2, hwn, hw2, hwf2, hcol2, hcolor2, hshift2, _⟩ :=
        ConsoleWriter.write_byte_spec_ge w b hwf hb10 (Nat.le_of_not_lt hc)
      obtain ⟨w', hw', hwf', hcolor', hnil', hcons'⟩ :=
        ih w2 hwf2 (fun x hx => hprint x (by simp [hx]))
          (by rw [hcol2]; simp [BUFFER_WIDTH])
      refine ⟨w', ?_, hwf', by rw [hcolor', hcolor2], fun h => absurd h (List.cons_ne_nil _ _), ?_⟩
      · rw [ConsoleWriter.write_string, if_pos (Or.inl hbp), hw2,
          Option.some_bind]
        exact hw'
      · intro _
        have hc81 : 80 ≤ w.column_position := by
          have h := Nat.le_of_not_lt hc
          simpa [BUFFER_WIDTH] using h
        have hc80 : w.column_position = 80 := by omega
        simp only [List.length_cons]
        simp only [BUFFER_WIDTH]
        rcases List.eq_nil_or_concat rest with rfl | hne
        · obtain ⟨h1, h2⟩ := hnil' rfl
          rw [h1, h2, hcol2, hshift2, hc80]
          simp only [List.length_nil, List.length_cons]
          constructor <;> first | trivial | omega
        · have hrne : rest ≠ [] := by
            rcases hne with ⟨l, a, rfl⟩; simp
          obtain ⟨h1, h2⟩ := hcons' hrne
          simp only [BUFFER_WIDTH] at h1 h2
          rw [h1, h2, hcol2, hshift2, hc80]
          constructor <;> first | trivial | omega

/-! ### Where the bytes of a printable string end up -/

theorem ConsoleWriter.write_string_printable_tail (bs : List Nat)
    (w : ConsoleWriter) (hwf : wfBuffer w.buffer)
    (hcol : w.column_position = 0)
    (hprint : ∀ b ∈ bs, 0x20 ≤ b ∧ b ≤ 0x7e) (hne : bs ≠ []) :
    ∃ w', w.write_string bs = some w' ∧
      ∀ i, i < bs.length → i / 80 = (bs.length - 1) / 80 →
        w'.buffer.readCell (BUFFER_HEIGHT - 1) (i % 80) =
          some { ascii_char := bs.getD i 0, color_code := w.current_color } := by
  have hlen1 : 1 ≤ bs.length := by
    cases bs with
    | nil => exact absurd rfl hne
    | cons x xs => simp
  by_cases ht0 : (bs.length - 1) / 80 = 0
  · obtain ⟨w', hw', _, _, _, _, hcells⟩ :=
      ConsoleWriter.write_string_run bs w 0 hwf hcol hprint
        (by simp only [BUFFER_WIDTH]; omega)
    refine ⟨w', hw', ?_⟩
    intro i hi hdiv
    rw [show i % 80 = i from by omega, hcells,
      if_pos (show BUFFER_HEIGHT - 1 = BUFFER_HEIGHT - 1 ∧ 0 ≤ i ∧ i < 0 + bs.length
        from by omega)]
    rw [show i - 0 = i from by omega]
  · set t := ((bs.length - 1) / 80) * 80 with htdef
    have htmod : t % 80 = 0 := by omega
    have ht1 : 80 ≤ t := by omega
    have htle : t ≤ bs.length - 1 := by omega
    have htlt : bs.length - 1 < t + 80 := by omega
    have htake : (bs.take t).length = t := by
      rw [List.length_take]; omega
    have hdrop : (bs.drop t).length = bs.length - t := List.length_drop t bs
    cases hd : bs.drop t with
    | nil => rw [hd] at hdrop; simp at hdrop; omega
    | cons d rest' =>
      have hdp : ∀ b ∈ d :: rest', 0x20 ≤ b ∧ b ≤ 0x7e := by
        intro x hx
        exact hprint x (List.mem_of_mem_drop (hd ▸ hx))
      have hrest'len : rest'.length = bs.length - t - 1 := by
        rw [hd] at hdrop; simp at hdrop; omega
      obtain ⟨wt, hwt, hwft, hcolort, hnilt, hconst⟩ :=
        ConsoleWriter.write_string_printable_progress (bs.take t) w hwf
          (fun x hx => hprint x (List.mem_of_mem_take hx))
          (by rw [hcol]; exact Nat.zero_le _)
      have htne : bs.take t ≠ [] := by
        intro h
        rw [h] at htake
        simp at htake
        omega
      obtain ⟨hcolt, _⟩ := hconst htne
      rw [htake, hcol] at hcolt
      have hcolt80 : wt.column_position = 80 := by
        rw [hcolt]
        simp only [BUFFER_WIDTH]
        omega
      have hd10 : d ≠ 10 := by
        have := hdp d (by simp)
        omega
      obtain ⟨wn, w2, hwn, hw2, hwf2, hcol2, hcolor2, _, hcells2⟩ :=
        ConsoleWriter.write_byte_spec_ge wt d hwft hd10
          (by rw [hcolt80]; simp [BUFFER_WIDTH])
      obtain ⟨w', hw', _, _, _, _, hcells'⟩ :=
        ConsoleWriter.write_string_run rest' w2 1 hwf2 hcol2
          (fun x hx => hdp x (by simp [hx]))
          (by simp only [BUFFER_WIDTH]; omega)
      have heq : w.write_string bs = some w' := by
        rw [show bs = bs.take t ++ (d :: rest') from by rw [← hd]; exact (List.take_append_drop t bs).symm,
          ConsoleWriter.write_string_append, hwt, Option.some_bind,
          ConsoleWriter.write_string, if_pos (Or.inl (hdp d (by simp))),
          hw2, Option.some_bind]
        exact hw'
      refine ⟨w', heq, ?_⟩
      intro i hi hdiv
      have hit : t ≤ i := by omega
      have hilt : i - t < 80 := by omega
      have himod : i % 80 = i - t := by omega
      rw [himod]
      by_cases hieq : i = t
      · rw [show i - t = 0 from by omega, hcells',
          if_neg (by omega), hcells2,
          if_pos (show BUFFER_HEIGHT - 1 = BUFFER_HEIGHT - 1 ∧ (0:Nat) = 0 from ⟨rfl, rfl⟩)]
        have hgd : bs.getD i 0 = d := by
          rw [List.getD_eq_getElem?_getD, show (i:Nat) = t + 0 from by omega,
            ← List.getElem?_drop, hd]
          simp
        rw [hgd, hcolort]
      · have hig : t + 1 ≤ i := by omega
        rw [hcells', if_pos (show BUFFER_HEIGHT - 1 = BUFFER_HEIGHT - 1 ∧
            1 ≤ i - t ∧ i - t < 1 + rest'.length from by omega)]
        have hgd : rest'.getD (i - t - 1) 0 = bs.getD i 0 := by
          rw [List.getD_eq_getElem?_getD, List.getD_eq_getElem?_getD]
          have h1 : rest'[i - t - 1]? = (d :: rest')[i - t]? := by
            rw [show i - t = (i - t - 1) + 1 from by omega]
            simp
          rw [h1, ← hd, List.getElem?_drop,
            show t + (i - t) = i from by omega]
        rw [hgd, hcolor2, hcolort]

/-! ### Newline-terminated lines -/

theorem ConsoleWriter.write_line_spec (l : List Nat) (w : ConsoleWriter)
    (hwf : wfBuffer w.buffer) (hcol : w.column_position = 0)
    (hprint : ∀ b ∈ l, 0x20 ≤ b ∧ b ≤ 0x7e) (hlen : l.length ≤ 80)
    (hblank : ∀ c, c < BUFFER_WIDTH →
      w.buffer.readCell (BUFFER_HEIGHT - 1) c = some (blankChar w.current_color)) :
    ∃ w', w.write_string (l ++ [10]) = some w' ∧ wfBuffer w'.buffer ∧
      w'.column_position = 0 ∧ w'.current_color = w.current_color ∧
      w'.shift_count = w.shift_count + 1 ∧
      (∀ c, c < BUFFER_WIDTH →
        w'.buffer.readCell (BUFFER_HEIGHT - 1) c =
          some (blankChar w.current_color)) ∧
      (∀ c, c < BUFFER_WIDTH →
        w'.buffer.readCell (BUFFER_HEIGHT - 2) c =
          some { ascii_char := l.getD c 32, color_code := w.current_color }) ∧
      (∀ r c, r < BUFFER_HEIGHT - 2 →
        w'.buffer.readCell r c = w.buffer.readCell (r + 1) c) := by
  obtain ⟨wa, hwa, hwfa, hcola, hcolora, hshifta, hcellsa⟩ :=
    ConsoleWriter.write_string_run l w 0 hwf hcol hprint
      (by simp only [BUFFER_WIDTH]; omega)
  have hrow24 : ∀ c, c < BUFFER_WIDTH →
      wa.buffer.readCell (BUFFER_HEIGHT - 1) c =
        some { ascii_char := l.getD c 32, color_code := w.current_color } := by
    intro c hc
    rw [hcellsa]
    by_cases hcl : c < l.length
    · rw [if_pos (by omega)]
      have : l.getD (c - 0) 0 = l.getD c 32 := by
        rw [show c - 0 = c from rfl, List.getD_eq_getElem?_getD,
          List.getD_eq_getElem?_getD, List.getElem?_eq_getElem hcl]
        simp
      rw [this]
    · rw [if_neg (by omega), hblank c hc]
      have : l.getD c 32 = 32 := by
        rw [List.getD_eq_getElem?_getD, List.getElem?_eq_none (by omega)]
        simp
      rw [this]
      rfl
  obtain ⟨w', hw', hwf', hcol', hcolor', hshift', hcells'⟩ :=
    ConsoleWriter.new_line_spec wa hwfa
  have heq : w.write_string (l ++ [10]) = some w' := by
    rw [ConsoleWriter.write_string_append, hwa, Option.some_bind,
      ConsoleWriter.write_string, if_pos (Or.inr rfl),
      ConsoleWriter.write_byte_newline, hw', Option.some_bind]
    rfl
  refine ⟨w', heq, hwf', hcol', by rw [hcolor', hcolora],
    by rw [hshift', hshifta], ?_, ?_, ?_⟩
  · intro c hc
    rw [hcells', if_pos ⟨rfl, hc⟩, hcolora]
  · intro c hc
    rw [hcells', if_neg (by simp only [BUFFER_HEIGHT] at *; omega),
      if_pos (by simp only [BUFFER_HEIGHT]; omega),
      show BUFFER_HEIGHT - 2 + 1 = BUFFER_HEIGHT - 1 from by
        simp only [BUFFER_HEIGHT]]
    exact hrow24 c hc
  · intro r c hr
    rw [hcells', if_neg (by simp only [BUFFER_HEIGHT] at *; omega),
      if_pos (by simp only [BUFFER_HEIGHT] at *; omega), hcellsa,
      if_neg (by simp only [BUFFER_HEIGHT] at *; omega)]

theorem writeLines_spec (L : List (List Nat)) : ∀ (w : ConsoleWriter),
    wfBuffer w.buffer → w.column_position = 0 →
    (∀ l ∈ L, (∀ b ∈ l, 0x20 ≤ b ∧ b ≤ 0x7e) ∧ l.length ≤ 80) →
    (∀ c, c < BUFFER_WIDTH →
      w.buffer.readCell (BUFFER_HEIGHT - 1) c =
        some (blankChar w.current_color)) →
    ∃ w', writeLines w L = some w' ∧ wfBuffer w'.buffer ∧
      w'.column_position = 0 ∧ w'.current_color = w.current_color ∧
      (∀ c, c < BUFFER_WIDTH →
        w'.buffer.readCell (BUFFER_HEIGHT - 1) c =
          some (blankChar w.current_color)) ∧
      (∀ j l, j < L.length → j < BUFFER_HEIGHT - 1 →
        L[L.length - 1 - j]? = some l →
        ∀ c, c < BUFFER_WIDTH →
          w'.buffer.readCell (BUFFER_HEIGHT - 2 - j) c =
            some { ascii_char := l.getD c 32, color_code := w.current_color }) ∧
      (∀ r c, r + L.length ≤ BUFFER_HEIGHT - 2 →
        w'.buffer.readCell r c = w.buffer.readCell (r + L.length) c) := by
  induction L with
  | nil =>
    intro w hwf hcol _ hblank
    exact ⟨w, rfl, hwf, hcol, rfl, hblank,
      fun j l hj _ _ _ _ => absurd hj (by simp),
      fun r c _ => by simp⟩
  | cons l rest ih =>
    intro w hwf hcol hlines hblank
    obtain ⟨hl, hllen⟩ := hlines l (by simp)
    obtain ⟨w1, hw1, hwf1, hcol1, hcolor1, _, hblank1, hline1, hup1⟩ :=
      ConsoleWriter.write_line_spec l w hwf hcol hl hllen hblank
    obtain ⟨w', hw', hwf', hcol', hcolor', hblank', hrows', hup'⟩ :=
      ih w1 hwf1 hcol1 (fun x hx => hlines x (by simp [hx]))
        (by intro c hc; rw [hblank1 c hc, hcolor1])
    have heq : writeLines w (l :: rest) = some w' := by
      rw [writeLines, hw1, Option.some_bind]
      exact hw'
    have hcolorw : w'.current_color = w.current_color := by
      rw [hcolor', hcolor1]
    refine ⟨w', heq, hwf', hcol', hcolorw, ?_, ?_, ?_⟩
    · intro c hc
      rw [hblank' c hc, hcolor1]
    · intro j lj hj hj24 hidx c hc
      simp only [List.length_cons] at hj hidx
      by_cases hjr : j < rest.length
      · have hidx' : rest[rest.length - 1 - j]? = some lj := by
          have h1 : rest.length + 1 - 1 - j = (rest.length - 1 - j) + 1 := by
            omega
          rw [h1] at hidx
          simpa using hidx
        rw [hrows' j lj hjr hj24 hidx' c hc, hcolor1]
      · have hjeq : j = rest.length := by omega
        have hlj : lj = l := by
          rw [hjeq] at hidx
          simp at hidx
          exact hidx.symm
        subst hlj
        have hrow : BUFFER_HEIGHT - 2 - j + rest.length = BUFFER_HEIGHT - 2 := by
          simp only [BUFFER_HEIGHT] at *
          omega
        rw [hup' (BUFFER_HEIGHT - 2 - j) c (by omega), hrow,
          hline1 c hc]
    · intro r c hr
      simp only [List.length_cons] at hr ⊢
      have h1 : r + rest.length ≤ BUFFER_HEIGHT - 2 := by omega
      rw [hup' r c h1, hup1 (r + rest.length) c (by omega),
        show r + rest.length + 1 = r + (rest.length + 1) from by omega]

/-! ### Claim theorems -/

/-- C1: for every byte fed to `write_byte`: a newline performs a line
shift (which resets the column to 0 and stores no cell for the byte);
any other byte with the column strictly below the width is stored at the
bottom row and current column with the writer's color and the column
advances by one; any other byte with the column at the width triggers a
line shift first and then lands at column 0 of the fresh bottom row,
with the column advancing to 1. -/
theorem write_byte_newline_wrap_correct (w : ConsoleWriter) (b : Nat)
    (hwf : wfBuffer w.buffer) (hcol : w.column_position ≤ BUFFER_WIDTH) :
    (b = 10 → w.write_byte b = w.new_line ∧
      ∃ w', w.new_line = some w' ∧ w'.column_position = 0) ∧
    (b ≠ 10 → w.column_position < BUFFER_WIDTH →
      ∃ w', w.write_byte b = some w' ∧
        w'.column_position = w.column_position + 1 ∧
        w'.buffer.readCell (BUFFER_HEIGHT - 1) w.column_position =
          some { ascii_char := b, color_code := w.current_color } ∧
        ∀ r c, ¬(r = BUFFER_HEIGHT - 1 ∧ c = w.column_position) →
          w'.buffer.readCell r c = w.buffer.readCell r c) ∧
    (b ≠ 10 → w.column_position = BUFFER_WIDTH →
      ∃ wn w', w.new_line = some wn ∧ w.write_byte b = some w' ∧
        w'.column_position = 1 ∧
        w'.buffer.readCell (BUFFER_HEIGHT - 1) 0 =
          some { ascii_char := b, color_code := w.current_color } ∧
        ∀ r c, ¬(r = BUFFER_HEIGHT - 1 ∧ c = 0) →
          w'.buffer.readCell r c = wn.buffer.readCell r c) := by
  refine ⟨?_, ?_, ?_⟩
  · intro hb
    subst hb
    obtain ⟨w', hw', _, hcol', _, _, _⟩ := ConsoleWriter.new_line_spec w hwf
    exact ⟨ConsoleWriter.write_byte_newline w, w', hw', hcol'⟩
  · intro hb hlt
    obtain ⟨w', hw', _, hcol', _, _, hcells⟩ :=
      ConsoleWriter.write_byte_spec_lt w b hwf hb hlt
    refine ⟨w', hw', hcol', ?_, ?_⟩
    · rw [hcells, if_pos ⟨rfl, rfl⟩]
    · intro r c hnot
      rw [hcells, if_neg hnot]
  · intro hb heq
    obtain ⟨wn, w', hwn, hw', _, hcol', _, _, hcells⟩ :=
      ConsoleWriter.write_byte_spec_ge w b hwf hb (Nat.le_of_eq heq.symm)
    refine ⟨wn, w', hwn, hw', hcol', ?_, ?_⟩
    · rw [hcells, if_pos ⟨rfl, rfl⟩]
    · intro r c hnot
      rw [hcells, if_neg hnot]

/-- Witness for C1: writing byte 65 to the freshly constructed writer on
an all-blank buffer stores it at the bottom row, column 0, and moves the
column to 1. -/
theorem write_byte_newline_wrap_correct_witness :
    ∃ w', (initWriter emptyBuffer).write_byte 65 = some w' ∧
      w'.column_position = 1 ∧
      w'.buffer.readCell (BUFFER_HEIGHT - 1) 0 =
        some { ascii_char := 65, color_code := 14 } := by
  obtain ⟨_, h2, _⟩ :=
    write_byte_newline_wrap_correct (initWriter emptyBuffer) 65
      (by decide) (by decide)
  obtain ⟨w', hw', hcol, hcell, _⟩ := h2 (by decide) (by decide)
  refine ⟨w', hw', by rw [hcol]; rfl, ?_⟩
  rw [show (0 : Nat) = (initWriter emptyBuffer).column_position from rfl]
  exact hcell

/-- C4: `new_line` copies each row `r ∈ [1, height-1]` into row `r-1`
(so afterwards row `r` holds what row `r+1` held) and clears the bottom
row to blank cells in the writer's color; and `clear_row` blanks exactly
the given row, leaving every other row untouched. -/
theorem new_line_scrolls_and_clears (w : ConsoleWriter)
    (hwf : wfBuffer w.buffer) :
    (∃ w', w.new_line = some w' ∧ w'.column_position = 0 ∧
      (∀ r c, r < BUFFER_HEIGHT - 1 →
        w'.buffer.readCell r c = w.buffer.readCell (r + 1) c) ∧
      (∀ c, c < BUFFER_WIDTH →
        w'.buffer.readCell (BUFFER_HEIGHT - 1) c =
          some (blankChar w.current_color))) ∧
    (∀ row, row < BUFFER_HEIGHT →
      ∃ w2, w.clear_row row = some w2 ∧
        (∀ c, c < BUFFER_WIDTH →
          w2.buffer.readCell row c = some (blankChar w.current_color)) ∧
        (∀ r c, r ≠ row → w2.buffer.readCell r c = w.buffer.readCell r c)) := by
  constructor
  · obtain ⟨w', hw', _, hcol', _, _, hcells⟩ := ConsoleWriter.new_line_spec w hwf
    refine ⟨w', hw', hcol', ?_, ?_⟩
    · intro r c hr
      rw [hcells, if_neg (by omega), if_pos hr]
    · intro c hc
      rw [hcells, if_pos ⟨rfl, hc⟩]
  · intro row hrow
    obtain ⟨w2, hw2, _, _, _, _, hcells⟩ :=
      ConsoleWriter.clear_row_spec w row hwf hrow
    refine ⟨w2, hw2, ?_, ?_⟩
    · intro c hc
      rw [hcells, if_pos ⟨rfl, hc⟩]
    · intro r c hr
      rw [hcells, if_neg (by tauto)]

/-- Witness for C4: on the fresh all-blank writer, `new_line` succeeds
with the column reset to 0, and `clear_row 0` succeeds leaving row 1
untouched. -/
theorem new_line_scrolls_and_clears_witness :
    (∃ w', (initWriter emptyBuffer).new_line = some w' ∧
      w'.column_position = 0) ∧
    (∃ w2, (initWriter emptyBuffer).clear_row 0 = some w2 ∧
      w2.buffer.readCell 1 0 = (initWriter emptyBuffer).buffer.readCell 1 0) := by
  obtain ⟨⟨w', hw', hcol', _, _⟩, hclear⟩ :=
    new_line_scrolls_and_clears (initWriter emptyBuffer) (by decide)
  obtain ⟨w2, hw2, _, hother⟩ := hclear 0 (by decide)
  exact ⟨⟨w', hw', hcol'⟩, ⟨w2, hw2, hother 1 0 (by decide)⟩⟩

/-- C9: the interrupt descriptor table built by `src/interrupts.rs` binds
exactly one of its 256 entries, the breakpoint vector 3, to a handler;
every other vector is left unbound.  (The table is a constant: `init_idt`
only loads it, nothing ever mutates it.) -/
theorem idt_binds_only_breakpoint :
    IDT breakpointVector = some breakpoint_handler ∧
    ∀ v : Fin 256, v ≠ breakpointVector → IDT v = none := by
  constructor
  · rfl
  · intro v hv
    simp [IDT, InterruptDescriptorTable.setBreakpointHandler,
      InterruptDescriptorTable.new, hv]

/-- Witness for C9: vector 0 is distinct from the breakpoint vector and
is unbound. -/
theorem idt_binds_only_breakpoint_witness :
    (0 : Fin 256) ≠ breakpointVector ∧ IDT 0 = none :=
  ⟨by decide, idt_binds_only_breakpoint.2 0 (by decide)⟩

/-- C2: `write_string` passes printable bytes (0x20–0x7e) and the
newline byte to `write_byte` unchanged and replaces every other byte by
the placeholder 0xfe before passing it on; consequently a byte value `v`
outside that set (and distinct from 0xfe) that is absent from the buffer
never appears in the buffer, and the call never panics. -/
theorem write_string_filters_bytes (w : ConsoleWriter) (s : List Nat)
    (v : Nat) (hwf : wfBuffer w.buffer)
    (hcol : w.column_position ≤ BUFFER_WIDTH)
    (hav : bufferAvoids w.buffer v)
    (hvp : ¬(0x20 ≤ v ∧ v ≤ 0x7e)) (hvfe : v ≠ 0xfe) :
    w.write_string s = w.write_bytes (s.map vgaMapByte) ∧
    (∀ b, ((0x20 ≤ b ∧ b ≤ 0x7e) ∨ b = 10) → vgaMapByte b = b) ∧
    (∀ b, ¬((0x20 ≤ b ∧ b ≤ 0x7e) ∨ b = 10) → vgaMapByte b = 0xfe) ∧
    (∃ w', w.write_string s = some w' ∧ bufferAvoids w'.buffer v) := by
  refine ⟨ConsoleWriter.write_string_eq_bytes s w, ?_, ?_, ?_⟩
  · intro b hb
    simp [vgaMapByte, hb]
  · intro b hb
    simp [vgaMapByte, hb]
  · obtain ⟨w', hw', _, _, _⟩ := ConsoleWriter.write_string_total s w hwf hcol
    exact ⟨w', hw',
      ConsoleWriter.write_string_avoids s w v hwf hav hvp hvfe w' hw'⟩

/-- Witness for C2: writing the single non-printable byte 1 to the fresh
all-blank writer succeeds and leaves no cell with ASCII value 1. -/
theorem write_string_filters_bytes_witness :
    (initWriter emptyBuffer).write_string [1] =
      (initWriter emptyBuffer).write_bytes ([1].map vgaMapByte) ∧
    ∃ w', (initWriter emptyBuffer).write_string [1] = some w' ∧
      bufferAvoids w'.buffer 1 := by
  obtain ⟨heq, _, _, hex⟩ :=
    write_string_filters_bytes (initWriter emptyBuffer) [1] 1
      (by decide) (by decide) (by decide) (by decide) (by decide)
  exact ⟨heq, hex⟩

/-- C3: writing a nonempty all-printable string of length `L` from
column 0 performs exactly `ceil(L/80) - 1` line shifts, every byte is
stored in the buffer when it is processed (byte `i` lands at the bottom
row, column `i mod 80`), the bytes of the final segment are still there
at the end, and the final column is `L mod 80`, or 80 when `L` is a
multiple of 80. -/
theorem write_string_scroll_count_and_column (s : List Nat)
    (w : ConsoleWriter) (hwf : wfBuffer w.buffer)
    (hcol : w.column_position = 0)
    (hprint : ∀ b ∈ s, 0x20 ≤ b ∧ b ≤ 0x7e) (hlen : 1 ≤ s.length) :
    ∃ w', w.write_string s = some w' ∧
      w'.shift_count = w.shift_count +
        ((s.length + (BUFFER_WIDTH - 1)) / BUFFER_WIDTH - 1) ∧
      (¬s.length % BUFFER_WIDTH = 0 →
        w'.column_position = s.length % BUFFER_WIDTH) ∧
      (s.length % BUFFER_WIDTH = 0 → w'.column_position = BUFFER_WIDTH) ∧
      (∀ i, i < s.length → i / BUFFER_WIDTH = (s.length - 1) / BUFFER_WIDTH →
        w'.buffer.readCell (BUFFER_HEIGHT - 1) (i % BUFFER_WIDTH) =
          some { ascii_char := s.getD i 0, color_code := w.current_color }) ∧
      (∀ i, i < s.length →
        ∃ wi, w.write_string (s.take (i + 1)) = some wi ∧
          wi.buffer.readCell (BUFFER_HEIGHT - 1) (i % BUFFER_WIDTH) =
            some { ascii_char := s.getD i 0, color_code := w.current_color }) := by
  have hne : s ≠ [] := by
    intro h
    rw [h] at hlen
    simp at hlen
  obtain ⟨wp, hwp, _, _, _, hcons⟩ :=
    ConsoleWriter.write_string_printable_progress s w hwf hprint
      (by rw [hcol]; exact Nat.zero_le _)
  obtain ⟨hcolp, hshiftp⟩ := hcons hne
  obtain ⟨wt, hwt, htail⟩ :=
    ConsoleWriter.write_string_printable_tail s w hwf hcol hprint hne
  rw [hwp] at hwt
  cases hwt
  refine ⟨wp, hwp, ?_, ?_, ?_, ?_, ?_⟩
  · rw [hshiftp, hcol]
    simp only [BUFFER_WIDTH]
    omega
  · intro hmod
    rw [hcolp, hcol]
    simp only [BUFFER_WIDTH] at *
    omega
  · intro hmod
    rw [hcolp, hcol]
    simp only [BUFFER_WIDTH] at *
    omega
  · intro i hi hdiv
    simp only [BUFFER_WIDTH] at hdiv ⊢
    exact htail i hi hdiv
  · intro i hi
    have htk : (s.take (i + 1)).length = i + 1 := by
      rw [List.length_take]
      omega
    have htkp : ∀ b ∈ s.take (i + 1), 0x20 ≤ b ∧ b ≤ 0x7e :=
      fun b hb => hprint b (List.mem_of_mem_take hb)
    have htkne : s.take (i + 1) ≠ [] := by
      intro h
      rw [h] at htk
      simp at htk
    obtain ⟨wi, hwi, htaili⟩ :=
      ConsoleWriter.write_string_printable_tail (s.take (i + 1)) w hwf hcol
        htkp htkne
    refine ⟨wi, hwi, ?_⟩
    have hgd : (s.take (i + 1)).getD i 0 = s.getD i 0 := by
      rw [List.getD_eq_getElem?_getD, List.getD_eq_getElem?_getD,
        List.getElem?_take_of_lt (Nat.lt_succ_self i)]
    have := htaili i (by omega) (by rw [htk]; omega)
    rw [hgd] at this
    simp only [BUFFER_WIDTH]
    exact this

/-- Witness for C3: writing 85 copies of byte 65 from the fresh writer
scrolls exactly once, ends at column 5, and leaves byte 65 at the bottom
row, column 4 (the 85th character at columns 0–4 of the bottom row). -/
theorem write_string_scroll_count_and_column_witness :
    ∃ w', (initWriter emptyBuffer).write_string (List.replicate 85 65) =
        some w' ∧
      w'.shift_count = 1 ∧ w'.column_position = 5 ∧
      w'.buffer.readCell (BUFFER_HEIGHT - 1) 4 =
        some { ascii_char := 65, color_code := 14 } := by
  obtain ⟨w', hw', hshift, hc1, _, hcontent, _⟩ :=
    write_string_scroll_count_and_column (List.replicate 85 65)
      (initWriter emptyBuffer) (by decide) (by decide) (by decide) (by decide)
  refine ⟨w', hw', by rw [hshift]; rfl, by rw [hc1 (by decide)]; rfl, ?_⟩
  have h := hcontent 84 (by decide) (by decide)
  rw [show (84 : Nat) % BUFFER_WIDTH = 4 from by decide] at h
  rw [show List.getD (List.replicate 85 65) 84 0 = 65 from by decide] at h
  exact h

/-- C7: the invariant `column ≤ width` is preserved by `write_byte` and
`write_string` (on a well-formed buffer), and holds for the freshly
constructed global writer, whose column is 0. -/
theorem column_invariant_preserved :
    (∀ (w w' : ConsoleWriter) (b : Nat), wfBuffer w.buffer →
      w.column_position ≤ BUFFER_WIDTH → w.write_byte b = some w' →
      w'.column_position ≤ BUFFER_WIDTH) ∧
    (∀ (w w' : ConsoleWriter) (s : List Nat), wfBuffer w.buffer →
      w.column_position ≤ BUFFER_WIDTH → w.write_string s = some w' →
      w'.column_position ≤ BUFFER_WIDTH) ∧
    (∀ b : Buffer, (initWriter b).column_position = 0 ∧
      (initWriter b).column_position ≤ BUFFER_WIDTH) := by
  refine ⟨?_, ?_, ?_⟩
  · intro w w' b hwf _ hw'
    obtain ⟨w2, hw2, _, hcol2, _⟩ := ConsoleWriter.write_byte_total w b hwf
    rw [hw2] at hw'
    cases hw'
    exact hcol2
  · intro w w' s hwf hcol hw'
    obtain ⟨w2, hw2, _, hcol2, _⟩ :=
      ConsoleWriter.write_string_total s w hwf hcol
    rw [hw2] at hw'
    cases hw'
    exact hcol2
  · intro b
    exact ⟨rfl, Nat.zero_le _⟩

/-- Witness for C7: a concrete `write_byte` call on the fresh writer
lands back inside the invariant. -/
theorem column_invariant_preserved_witness :
    ∃ w', (initWriter emptyBuffer).write_byte 65 = some w' ∧
      w'.column_position ≤ BUFFER_WIDTH := by
  have h : ((initWriter emptyBuffer).write_byte 65).isSome = true := by decide
  obtain ⟨w', hw'⟩ := Option.isSome_iff_exists.mp h
  exact ⟨w', hw',
    column_invariant_preserved.1 (initWriter emptyBuffer) w' 65
      (by decide) (by decide) hw'⟩

/-- C8: with a well-formed buffer and the column invariant, no console
write operation can reach the out-of-bounds (panic) branch: `write_byte`,
`new_line`, `clear_row` (for any row below the height) and `write_string`
all succeed; moreover every non-newline byte is stored through a column
index that is strictly below the width. -/
theorem console_accesses_in_bounds (w : ConsoleWriter)
    (hwf : wfBuffer w.buffer) (hcol : w.column_position ≤ BUFFER_WIDTH) :
    (∀ b : Nat, ∃ w', w.write_byte b = some w') ∧
    (∃ w', w.new_line = some w') ∧
    (∀ row, row < BUFFER_HEIGHT → ∃ w', w.clear_row row = some w') ∧
    (∀ s : List Nat, ∃ w', w.write_string s = some w') ∧
    (∀ b : Nat, b ≠ 10 → ∃ w' col, w.write_byte b = some w' ∧
      col < BUFFER_WIDTH ∧
      w'.buffer.readCell (BUFFER_HEIGHT - 1) col =
        some { ascii_char := b, color_code := w.current_color }) := by
  refine ⟨?_, ?_, ?_, ?_, ?_⟩
  · intro b
    obtain ⟨w', hw', _, _, _⟩ := ConsoleWriter.write_byte_total w b hwf
    exact ⟨w', hw'⟩
  · obtain ⟨w', hw', _, _, _, _, _⟩ := ConsoleWriter.new_line_spec w hwf
    exact ⟨w', hw'⟩
  · intro row hrow
    obtain ⟨w', hw', _, _, _, _, _⟩ :=
      ConsoleWriter.clear_row_spec w row hwf hrow
    exact ⟨w', hw'⟩
  · intro s
    obtain ⟨w', hw', _, _, _⟩ := ConsoleWriter.write_string_total s w hwf hcol
    exact ⟨w', hw'⟩
  · intro b hb
    by_cases hc : w.column_position < BUFFER_WIDTH
    · obtain ⟨w', hw', _, _, _, _, hcells⟩ :=
        ConsoleWriter.write_byte_spec_lt w b hwf hb hc
      refine ⟨w', w.column_position, hw', hc, ?_⟩
      rw [hcells, if_pos ⟨rfl, rfl⟩]
    · obtain ⟨wn, w', _, hw', _, _, _, _, hcells⟩ :=
        ConsoleWriter.write_byte_spec_ge w b hwf hb (Nat.le_of_not_lt hc)
      refine ⟨w', 0, hw', by simp [BUFFER_WIDTH], ?_⟩
      rw [hcells, if_pos ⟨rfl, rfl⟩]

/-- Witness for C8: the fresh writer satisfies the precondition, and its
`new_line` and `clear_row 24` calls succeed. -/
theorem console_accesses_in_bounds_witness :
    (∃ w', (initWriter emptyBuffer).new_line = some w') ∧
    (∃ w', (initWriter emptyBuffer).clear_row 24 = some w') := by
  obtain ⟨_, hnl, hcr, _, _⟩ :=
    console_accesses_in_bounds (initWriter emptyBuffer) (by decide) (by decide)
  exact ⟨hnl, hcr 24 (by decide)⟩

/-- C6: a printable string (no newline) of length at most the width,
written from column 0, is reproduced at the bottom row with every
character at its original column offset; and the concrete example:
writing "AB\nCD" to the fresh all-blank writer leaves 'A','B' followed
by blanks in row height-2, 'C','D' followed by blanks in row height-1,
and the cursor column at 2. -/
theorem writeback_roundtrip_and_example (s : List Nat) (w : ConsoleWriter)
    (hwf : wfBuffer w.buffer) (hcol : w.column_position = 0)
    (hprint : ∀ b ∈ s, 0x20 ≤ b ∧ b ≤ 0x7e)
    (hlen : s.length ≤ BUFFER_WIDTH) :
    (∃ w', w.write_string s = some w' ∧ w'.column_position = s.length ∧
      ∀ i, i < s.length →
        w'.buffer.readCell (BUFFER_HEIGHT - 1) i =
          some { ascii_char := s.getD i 0, color_code := w.current_color }) ∧
    (∃ v, (initWriter emptyBuffer).write_string [65, 66, 10, 67, 68] =
        some v ∧
      v.column_position = 2 ∧
      (∀ c, c < BUFFER_WIDTH →
        v.buffer.readCell (BUFFER_HEIGHT - 2) c =
          some { ascii_char := [65, 66].getD c 32, color_code := 14 }) ∧
      (∀ c, c < BUFFER_WIDTH →
        v.buffer.readCell (BUFFER_HEIGHT - 1) c =
          some { ascii_char := [67, 68].getD c 32, color_code := 14 })) := by
  constructor
  · obtain ⟨w', hw', _, hcol', _, _, hcells⟩ :=
      ConsoleWriter.write_string_run s w 0 hwf hcol hprint
        (by simpa using hlen)
    refine ⟨w', hw', by rw [hcol']; simp, ?_⟩
    intro i hi
    rw [hcells, if_pos (by omega : BUFFER_HEIGHT - 1 = BUFFER_HEIGHT - 1 ∧
      0 ≤ i ∧ i < 0 + s.length)]
    rw [show i - 0 = i from rfl]
  · have h14 : (initWriter emptyBuffer).current_color = 14 := by decide
    have hblank0 : ∀ c, c < BUFFER_WIDTH →
        (initWriter emptyBuffer).buffer.readCell (BUFFER_HEIGHT - 1) c =
          some (blankChar (initWriter emptyBuffer).current_color) := by decide
    obtain ⟨w1, hw1, hwf1, hcol1, hcolor1, _, hblank1, hline1, _⟩ :=
      ConsoleWriter.write_line_spec [65, 66] (initWriter emptyBuffer)
        (by decide) rfl (by decide) (by decide) hblank0
    obtain ⟨v, hv, _, hcolv, hcolorv, _, hcellsv⟩ :=
      ConsoleWriter.write_string_run [67, 68] w1 0 hwf1 hcol1
        (by decide) (by decide)
    have heq : (initWriter emptyBuffer).write_string [65, 66, 10, 67, 68] =
        some v := by
      rw [show ([65, 66, 10, 67, 68] : List Nat) =
          ([65, 66] ++ [10]) ++ [67, 68] from rfl,
        ConsoleWriter.write_string_append, hw1, Option.some_bind]
      exact hv
    refine ⟨v, heq, by rw [hcolv]; rfl, ?_, ?_⟩
    · intro c hc
      have hno : ¬(BUFFER_HEIGHT - 2 = BUFFER_HEIGHT - 1 ∧ 0 ≤ c ∧
          c < 0 + ([67, 68] : List Nat).length) := by
        simp [BUFFER_HEIGHT]
      rw [hcellsv, if_neg hno, hline1 c hc, h14]
    · intro c hc
      rw [hcellsv]
      by_cases hc2 : c < 2
      · have hyes : BUFFER_HEIGHT - 1 = BUFFER_HEIGHT - 1 ∧ 0 ≤ c ∧
            c < 0 + ([67, 68] : List Nat).length :=
          ⟨rfl, Nat.zero_le c, by simpa using hc2⟩
        rw [if_pos hyes]
        have hgd : [67, 68].getD (c - 0) 0 = [67, 68].getD c 32 := by
          rw [show c - 0 = c from rfl, List.getD_eq_getElem?_getD,
            List.getD_eq_getElem?_getD,
            List.getElem?_eq_getElem (by simpa using hc2)]
          rfl
        rw [hgd, hcolor1, h14]
      · have hno : ¬(BUFFER_HEIGHT - 1 = BUFFER_HEIGHT - 1 ∧ 0 ≤ c ∧
            c < 0 + ([67, 68] : List Nat).length) :=
          fun h => hc2 (by simpa using h.2.2)
        rw [if_neg hno, hblank1 c hc, h14]
        have hgd : [67, 68].getD c 32 = 32 := by
          rw [List.getD_eq_getElem?_getD,
            List.getElem?_eq_none (by simpa using hc2)]
          rfl
        rw [hgd]
        rfl

/-- Witness for C6: writing the single printable byte 72 from the fresh
writer reproduces it at the bottom row, column 0, with the column at 1. -/
theorem writeback_roundtrip_and_example_witness :
    ∃ w', (initWriter emptyBuffer).write_string [72] = some w' ∧
      w'.column_position = 1 ∧
      w'.buffer.readCell (BUFFER_HEIGHT - 1) 0 =
        some { ascii_char := 72, color_code := 14 } := by
  obtain ⟨⟨w', hw', hcol', hcells⟩, _⟩ :=
    writeback_roundtrip_and_example [72] (initWriter emptyBuffer)
      (by decide) (by decide) (by decide) (by decide)
  refine ⟨w', hw', by rw [hcol']; rfl, ?_⟩
  have h := hcells 0 (by decide)
  rw [show List.getD [72] 0 0 = 72 from rfl,
    show (initWriter emptyBuffer).current_color = 14 from by decide] at h
  exact h

/-- C5 (amended): after writing at least `height` newline-terminated
printable lines (each of length at most the width) starting from column
0 with a blank bottom row, row `height-2` — not the bottom row — holds
the most recent line's content padded with blanks, the bottom row is
blank, each row `r < height-1` holds the `(length-(height-1)+r)`-th
line, and any line written more than `height-1` writes earlier whose
padded content differs from each of the last `height-1` lines' and from
the blank row appears in no row of the buffer. -/
theorem writeLines_second_to_bottom_row (L : List (List Nat))
    (w : ConsoleWriter) (hwf : wfBuffer w.buffer)
    (hcol : w.column_position = 0)
    (hlines : ∀ l ∈ L, (∀ b ∈ l, 0x20 ≤ b ∧ b ≤ 0x7e) ∧ l.length ≤ 80)
    (hblank : ∀ c, c < BUFFER_WIDTH →
      w.buffer.readCell (BUFFER_HEIGHT - 1) c =
        some (blankChar w.current_color))
    (hN : BUFFER_HEIGHT ≤ L.length) :
    ∃ w', writeLines w L = some w' ∧
      (∀ c, c < BUFFER_WIDTH →
        w'.buffer.readCell (BUFFER_HEIGHT - 1) c =
          some (blankChar w.current_color)) ∧
      (∀ l, L[L.length - 1]? = some l →
        ∀ c, c < BUFFER_WIDTH →
          w'.buffer.readCell (BUFFER_HEIGHT - 2) c =
            some { ascii_char := l.getD c 32, color_code := w.current_color }) ∧
      (∀ r, r < BUFFER_HEIGHT - 1 →
        ∃ l, L[L.length - (BUFFER_HEIGHT - 1) + r]? = some l ∧
          ∀ c, c < BUFFER_WIDTH →
            w'.buffer.readCell r c =
              some { ascii_char := l.getD c 32, color_code := w.current_color }) ∧
      (∀ i li, L[i]? = some li → i + BUFFER_HEIGHT ≤ L.length →
        (∀ j lj, L.length - (BUFFER_HEIGHT - 1) ≤ j → j < L.length →
          L[j]? = some lj →
          ∃ c, c < BUFFER_WIDTH ∧ li.getD c 32 ≠ lj.getD c 32) →
        (∃ c, c < BUFFER_WIDTH ∧ li.getD c 32 ≠ 32) →
        ∀ r, r < BUFFER_HEIGHT →
          ∃ c, c < BUFFER_WIDTH ∧
            w'.buffer.readCell r c ≠
              some { ascii_char := li.getD c 32, color_code := w.current_color }) := by
  obtain ⟨w', hw', _, _, _, hblank', hrows', _⟩ :=
    writeLines_spec L w hwf hcol hlines hblank
  have hH : BUFFER_HEIGHT = 25 := rfl
  have hrow_of_r : ∀ r, r < BUFFER_HEIGHT - 1 →
      ∃ l, L[L.length - (BUFFER_HEIGHT - 1) + r]? = some l ∧
        ∀ c, c < BUFFER_WIDTH →
          w'.buffer.readCell r c =
            some { ascii_char := l.getD c 32, color_code := w.current_color } := by
    intro r hr
    have hidxlt : L.length - (BUFFER_HEIGHT - 1) + r < L.length := by omega
    refine ⟨L[L.length - (BUFFER_HEIGHT - 1) + r],
      List.getElem?_eq_getElem hidxlt, ?_⟩
    intro c hc
    have hj : BUFFER_HEIGHT - 2 - (BUFFER_HEIGHT - 2 - r) = r := by omega
    have hidx : L.length - 1 - (BUFFER_HEIGHT - 2 - r) =
        L.length - (BUFFER_HEIGHT - 1) + r := by omega
    have h := hrows' (BUFFER_HEIGHT - 2 - r)
      L[L.length - (BUFFER_HEIGHT - 1) + r] (by omega) (by omega)
      (by rw [hidx]; exact List.getElem?_eq_getElem hidxlt) c hc
    rw [hj] at h
    exact h
  refine ⟨w', hw', hblank', ?_, hrow_of_r, ?_⟩
  · intro l hl c hc
    have h := hrows' 0 l (by omega) (by omega) (by simpa using hl) c hc
    simpa using h
  · intro i li hli hiold hdiff hnb r hr
    by_cases hr24 : r = BUFFER_HEIGHT - 1
    · obtain ⟨c, hc, hne⟩ := hnb
      refine ⟨c, hc, ?_⟩
      rw [hr24, hblank' c hc]
      intro h
      rw [Option.some_inj] at h
      exact hne (congrArg ScreenChar.ascii_char h).symm
    · have hrlt : r < BUFFER_HEIGHT - 1 := by omega
      obtain ⟨lj, hlj, hrow⟩ := hrow_of_r r hrlt
      obtain ⟨c, hc, hne⟩ := hdiff (L.length - (BUFFER_HEIGHT - 1) + r) lj
        (by omega) (by omega) hlj
      refine ⟨c, hc, ?_⟩
      rw [hrow c hc]
      intro h
      rw [Option.some_inj] at h
      exact hne (congrArg ScreenChar.ascii_char h).symm

/-- Witness for C5 (amended): after 26 lines "A\n" on the fresh writer,
row height-2 holds 'A' and the bottom row is blank. -/
theorem writeLines_second_to_bottom_row_witness :
    ∃ w', writeLines (initWriter emptyBuffer) (List.replicate 26 [65]) =
        some w' ∧
      w'.buffer.readCell (BUFFER_HEIGHT - 2) 0 =
        some { ascii_char := 65, color_code := 14 } ∧
      w'.buffer.readCell (BUFFER_HEIGHT - 1) 0 =
        some { ascii_char := 32, color_code := 14 } := by
  obtain ⟨w', hw', hbot, hlast, _, _⟩ :=
    writeLines_second_to_bottom_row (List.replicate 26 [65])
      (initWriter emptyBuffer) (by decide) rfl (by decide) (by decide)
      (by decide)
  refine ⟨w', hw', ?_, ?_⟩
  · have h := hlast [65] (by decide) 0 (by decide)
    rw [h]
    decide
  · have h := hbot 0 (by decide)
    rw [h]
    decide

/-- Counterexample to C5 as stated: after 26 newline-terminated lines
"A" (N = 26 exceeds the height 25), the bottom row does NOT hold the
most recent line's content: its first cell is the blank 32, while the
most recent line (index 25) starts with 65. -/
theorem writeLines_bottom_row_counterexample :
    ((writeLines (initWriter emptyBuffer) (List.replicate 26 [65])).bind
      fun w' => w'.buffer.readCell (BUFFER_HEIGHT - 1) 0) =
        some { ascii_char := 32, color_code := 14 } ∧
    ({ ascii_char := 32, color_code := 14 } : ScreenChar) ≠
      { ascii_char := 65, color_code := 14 } ∧
    (List.replicate 26 ([65] : List Nat))[25]? = some [65] ∧
    ([65] : List Nat).getD 0 32 = 65 := by
  obtain ⟨w', hw', _, _, _, hblank', _, _⟩ :=
    writeLines_spec (List.replicate 26 [65]) (initWriter emptyBuffer)
      (by decide) rfl (by decide) (by decide)
  refine ⟨?_, by decide, by decide, by decide⟩
  rw [hw', Option.some_bind]
  have h := hblank' 0 (by decide)
  rw [h]
  decide
